import Mathlib

/-!
# Verification of the readest styling & paragraph-iterator core

This file gives a shallow embedding, in Lean 4, of the font-stack
resolution of `getFontStyles` and of the content-block segmenter
`ParagraphIterator` from the repository's `style.ts` / `paragraph.ts`
(provided as `src/unnamed/part_000`), and proves or refutes the frozen
claims about them.

The DOM is modelled as a tree of element/text nodes.  A document body is
linearised into a token stream (an opening token and a closing token per
element, one token per text character); a DOM boundary point is an index
into that stream, and a `Range` is a pair of boundary indices.  This makes
`Range.toString` the characters strictly inside the window, makes
`setStart(node, 0)` / `setEndBefore(node)` / `setEndAfter(node)` arithmetic
on token indices, and makes `compareBoundaryPoints` integer comparison of
boundary indices, exactly as boundary points of a common document compare
in document order.
-/

namespace Readest

/-! ## Font constants

The repository imports `SERIF_FONTS`, `SANS_SERIF_FONTS`,
`MONOSPACE_FONTS`, `FALLBACK_FONTS`, `CJK_SERIF_FONTS` and
`CJK_SANS_SERIF_FONTS` from `@/services/constants`, a file that is not
part of the provided sources.  They are modelled here from the spec. -/

/-- Modelled from the spec: the static preference-ordered serif list
(`SERIF_FONTS` of `@/services/constants`, not under `src/`).  Per §4.1 the
two last-resort fonts Georgia and Times New Roman belong to the static
serif list (the code filters them out of the middle of the stack and
conditionally re-appends them, which is contentful only if they are
members).  The remaining names are representative placeholders; the
development only relies on the list being duplicate-free and disjoint
from the other static lists. -/
def SERIF_FONTS : List String :=
  ["Bitter", "Literata", "Vollkorn", "Georgia", "Times New Roman"]

/-- Modelled from the spec: the static sans-serif list (`SANS_SERIF_FONTS`),
duplicate-free and disjoint from the other static lists. -/
def SANS_SERIF_FONTS : List String :=
  ["Roboto", "Noto Sans", "Open Sans"]

/-- Modelled from the spec: the static monospace list (`MONOSPACE_FONTS`),
duplicate-free and disjoint from the other static lists. -/
def MONOSPACE_FONTS : List String :=
  ["Fira Code", "Consolas", "Courier New"]

/-- Modelled from the spec: the static CJK serif list (`CJK_SERIF_FONTS`),
duplicate-free and disjoint from the other static lists. -/
def CJK_SERIF_FONTS : List String :=
  ["Noto Serif CJK SC", "Source Han Serif CN"]

/-- Modelled from the spec: the static CJK sans-serif list
(`CJK_SANS_SERIF_FONTS`), duplicate-free and disjoint from the other
static lists. -/
def CJK_SANS_SERIF_FONTS : List String :=
  ["Noto Sans CJK SC", "Source Han Sans CN"]

/-- Modelled from the spec: the static fallback fonts (`FALLBACK_FONTS`,
"generic cross-platform substitutes", §4.1), a non-empty list disjoint
from the other static lists. -/
def FALLBACK_FONTS : List String :=
  ["MiSans L3"]

/-- `const lastSerifFonts = ['Georgia', 'Times New Roman'];`
(`getFontStyles`, `src/unnamed/part_000:30`). -/
def lastSerifFonts : List String := ["Georgia", "Times New Roman"]

/-- The `serifFonts` array built by `getFontStyles`
(`src/unnamed/part_000:31-42`): chosen serif font, then the CJK-default
font when distinct, then the static serif fonts excluding the two already
placed and the last-resort fonts, then the static CJK serif fonts
excluding the two already placed, then the last-resort fonts re-appended
when they belong to the static list and the CJK-default is not a
last-resort font, then the fallback fonts. -/
def serifFonts (serif defaultCJKFont : String) : List String :=
  serif ::
    ((if defaultCJKFont != serif then [defaultCJKFont] else []) ++
      SERIF_FONTS.filter (fun font =>
        font != serif && font != defaultCJKFont && !(lastSerifFonts.contains font)) ++
      CJK_SERIF_FONTS.filter (fun font => font != serif && font != defaultCJKFont) ++
      lastSerifFonts.filter (fun font =>
        SERIF_FONTS.contains font && !(lastSerifFonts.contains defaultCJKFont)) ++
      FALLBACK_FONTS)

/-- The `sansSerifFonts` array built by `getFontStyles`
(`src/unnamed/part_000:43-49`). -/
def sansSerifFonts (sansSerif defaultCJKFont : String) : List String :=
  sansSerif ::
    ((if defaultCJKFont != sansSerif then [defaultCJKFont] else []) ++
      SANS_SERIF_FONTS.filter (fun font => font != sansSerif && font != defaultCJKFont) ++
      CJK_SANS_SERIF_FONTS.filter (fun font => font != sansSerif && font != defaultCJKFont) ++
      FALLBACK_FONTS)

/-- The `monospaceFonts` array built by `getFontStyles`
(`src/unnamed/part_000:50`): the chosen monospace font followed by the
static monospace fonts excluding it; no CJK and no fallback handling. -/
def monospaceFonts (monospace : String) : List String :=
  monospace :: MONOSPACE_FONTS.filter (fun font => font != monospace)

/-! ## DOM model -/

/-- A DOM node: a text node or an element with a (lower-case) tag name and
child nodes. -/
inductive DomNode where
  | text : String → DomNode
  | elem : String → List DomNode → DomNode

/-- A token of the linearised document: an element's opening tag, an
element's closing tag, or one text character. -/
inductive Tok where
  | openTag : String → Tok
  | closeTag : String → Tok
  | ch : Char → Tok
  deriving Repr, DecidableEq

mutual

/-- Linearisation of a node into tokens. -/
def DomNode.toks : DomNode → List Tok
  | .text s => s.data.map Tok.ch
  | .elem t cs => Tok.openTag t :: (toksList cs ++ [Tok.closeTag t])

/-- Linearisation of a node list (e.g. the children of the body). -/
def toksList : List DomNode → List Tok
  | [] => []
  | c :: cs => c.toks ++ toksList cs

end

mutual

/-- The element nodes inside a node in document order, as produced by
`doc.createTreeWalker(doc.body, NodeFilter.SHOW_ELEMENT)`: each element
is reported with the index of its opening token, its tag name and its
children. -/
def DomNode.walkerElems : Nat → DomNode → List (Nat × String × List DomNode)
  | _, .text _ => []
  | base, .elem t cs => (base, t, cs) :: walkerElemsList (base + 1) cs

/-- The element nodes inside a node list in document order. -/
def walkerElemsList : Nat → List DomNode → List (Nat × String × List DomNode)
  | _, [] => []
  | base, c :: cs => c.walkerElems base ++ walkerElemsList (base + c.toks.length) cs

end

/-- `const blockTags = new Set([...])` (`src/unnamed/part_000:970-999`). -/
def blockTags : List String :=
  ["article", "aside", "blockquote", "caption", "details", "div", "dl", "dt",
   "dd", "figure", "footer", "figcaption", "h1", "h2", "h3", "h4", "h5", "h6",
   "header", "hgroup", "li", "main", "nav", "ol", "p", "pre", "section", "tr"]

/-- `const MAX_BLOCKS = 5000;` (`src/unnamed/part_000:1001`). -/
def MAX_BLOCKS : Nat := 5000

/-- The character class of `INVISIBLE_TEXT_PATTERN`
(`src/unnamed/part_000:1003-1004`), which lists JavaScript whitespace
plus U+00A0, U+1680, U+180E, U+2000-U+200A, U+202F, U+205F, U+3000,
U+200B-U+200D, U+2060 and U+FEFF.  JavaScript whitespace is tab, line
feed, vertical tab, form feed, carriage return, the Unicode space
separators (space, no-break space, U+1680, U+2000-U+200A, U+202F,
U+205F, U+3000), the line separators U+2028 and U+2029, and U+FEFF. -/
def isInvisible (c : Char) : Bool :=
  c.val == 9 || c.val == 10 || c.val == 11 || c.val == 12 || c.val == 13 ||
  c.val == 32 || c.val == 0xa0 || c.val == 0x1680 || c.val == 0x180e ||
  (0x2000 ≤ c.val && c.val ≤ 0x200a) || (0x200b ≤ c.val && c.val ≤ 0x200d) ||
  c.val == 0x2028 || c.val == 0x2029 || c.val == 0x202f || c.val == 0x205f ||
  c.val == 0x2060 || c.val == 0x3000 || c.val == 0xfeff

/-- The tag names of `MEDIA_SELECTOR` (`src/unnamed/part_000:1005`). -/
def MEDIA_TAGS : List String :=
  ["img", "svg", "video", "audio", "canvas", "math", "iframe", "object",
   "embed", "hr"]

/-- `hasMeaningfulText` (`src/unnamed/part_000:1007-1008`) on a character
list: the text with every invisible character removed has positive
length. -/
def hasMeaningfulChars (cs : List Char) : Bool :=
  (cs.filter (fun c => !isInvisible c)).length > 0

/-- `hasMeaningfulText` (`src/unnamed/part_000:1007-1008`). -/
def hasMeaningfulText (s : String) : Bool :=
  hasMeaningfulChars s.data

/-- The tokens strictly between boundary indices `s` and `e`. -/
def window (toks : List Tok) (s e : Nat) : List Tok :=
  (toks.drop s).take (e - s)

/-- The characters of a token list (`Range.toString` of a window). -/
def toksText (w : List Tok) : List Char :=
  w.filterMap fun
    | .ch c => some c
    | _ => none

/-- Whether a token is the opening or closing token of a media element.
An element contributes a (possibly shallow) clone to
`range.cloneContents()` exactly when the range covers it fully or
partially, i.e. when at least one of its two boundary tokens lies inside
the range's window; `fragment.querySelector(MEDIA_SELECTOR)` then finds
any such clone with a media tag. -/
def isMediaTok : Tok → Bool
  | .openTag t => MEDIA_TAGS.contains t
  | .closeTag t => MEDIA_TAGS.contains t
  | .ch _ => false

/-- `rangeHasContent` (`src/unnamed/part_000:1010-1019`): the range's
plain text has a meaningful character, or its cloned contents contain a
media element.  The model is total, so the `try/catch` (which returns
`false` on malformed ranges) has no failing case to model. -/
def rangeHasContent (toks : List Tok) (s e : Nat) : Bool :=
  hasMeaningfulChars (toksText (window toks s e)) ||
    (window toks s e).any isMediaTok

/-- `hasDirectText` (`src/unnamed/part_000:1021-1024`): some child is a
text node with meaningful text. -/
def hasDirectText (cs : List DomNode) : Bool :=
  cs.any fun
    | .text s => hasMeaningfulText s
    | _ => false

/-- `hasBlockChild` (`src/unnamed/part_000:1026-1027`): some child
element has a block tag. -/
def hasBlockChild (cs : List DomNode) : Bool :=
  cs.any fun
    | .elem t _ => blockTags.contains t
    | _ => false

/-! ## `ParagraphIterator.createAsync`

The construction loop (`src/unnamed/part_000:1046-1117`).  The per-batch
`await yieldToMain()` only reschedules work and does not affect the
computed blocks, so the model is the synchronous fold.  A `Range` is a
pair of boundary indices; `setStart(node, 0)` on an element whose opening
token is at `p` yields boundary `p + 1`, `setEndBefore(node)` yields
boundary `p`, and `setEndAfter(doc.body.lastChild ?? doc.body)` yields the
boundary after the last token. -/

/-- The mutable state of the construction loop: the open range's start
boundary (`last`), the collected blocks, and the block count. -/
structure BuildState where
  last : Option Nat
  blocks : List (Nat × Nat)
  count : Nat
  deriving Repr, DecidableEq

/-- One iteration of the walker loop body
(`src/unnamed/part_000:1065-1088`) on the element at opening-token index
`pos`: non-block tags are ignored; a block tag that has a block child and
no direct text is skipped; otherwise the open range (if any) is closed
just before the element, kept when it has content, and a new range is
opened at the element's first child position. -/
def processElem (toks : List Tok) (st : BuildState)
    (e : Nat × String × List DomNode) : BuildState :=
  let pos := e.1
  let tag := e.2.1
  let cs := e.2.2
  if blockTags.contains tag then
    if hasBlockChild cs && !hasDirectText cs then st
    else
      let st1 :=
        match st.last with
        | some s =>
          if rangeHasContent toks s pos then
            { st with blocks := st.blocks ++ [(s, pos)], count := st.count + 1 }
          else st
        | none => st
      { st1 with last := some (pos + 1) }
  else st

/-- The walker loop (`src/unnamed/part_000:1058-1089`): elements are
processed in document order while `count < MAX_BLOCKS`. -/
def runBuild (toks : List Tok) : List (Nat × String × List DomNode) → BuildState → BuildState
  | [], st => st
  | e :: rest, st =>
    if st.count < MAX_BLOCKS then runBuild toks rest (processElem toks st e) else st

/-- The start boundary used by the final wrap-up when no range is open
(`src/unnamed/part_000:1096-1104`): `setStart(doc.body.firstChild ??
doc.body, 0)` — inside the first child when it is an element, at its
first character when it is a text node, at the start of the empty body
otherwise. -/
def initialStart : List DomNode → Nat
  | .elem _ _ :: _ => 1
  | _ => 0

/-- `ParagraphIterator.createAsync` (`src/unnamed/part_000:1046-1117`)
reduced to the block list it computes for a body given by its child
nodes: run the walker loop; if the cap was reached return the collected
blocks; otherwise close the final open range (opening one over the whole
body if none is open) against the end of the body and keep it when it has
content. -/
def createBlocks (body : List DomNode) : List (Nat × Nat) :=
  let toks := toksList body
  let st := runBuild toks (walkerElemsList 0 body) ⟨none, [], 0⟩
  if MAX_BLOCKS ≤ st.count then st.blocks
  else
    let s :=
      match st.last with
      | some s => s
      | none => initialStart body
    if rangeHasContent toks s toks.length then st.blocks ++ [(s, toks.length)]
    else st.blocks

/-! ## Navigation -/

/-- The iterator: an immutable block list and the cursor
(`src/unnamed/part_000:1038-1044`); a fresh iterator has `#index = -1`. -/
structure ParagraphIterator where
  blocks : List (Nat × Nat)
  index : Int
  deriving Repr, DecidableEq

/-- The private constructor plus `createAsync`'s block computation: a
freshly built iterator over a document body. -/
def ParagraphIterator.create (body : List DomNode) : ParagraphIterator :=
  ⟨createBlocks body, -1⟩

/-- JavaScript `this.#blocks[i] ?? null` for a possibly negative index. -/
def ParagraphIterator.blockAt (it : ParagraphIterator) (i : Int) : Option (Nat × Nat) :=
  if 0 ≤ i then it.blocks.get? i.toNat else none

/-- `current()` (`src/unnamed/part_000:1127-1129`). -/
def ParagraphIterator.current (it : ParagraphIterator) : Option (Nat × Nat) :=
  it.blockAt it.index

/-- `first()` (`src/unnamed/part_000:1131-1135`): result and updated
iterator. -/
def ParagraphIterator.firstBlock (it : ParagraphIterator) :
    Option (Nat × Nat) × ParagraphIterator :=
  if it.blocks.length = 0 then (none, it)
  else (it.blocks.get? 0, { it with index := 0 })

/-- `next()` (`src/unnamed/part_000:1143-1150`): move forward if the new
index is in bounds, else return null without moving. -/
def ParagraphIterator.next (it : ParagraphIterator) :
    Option (Nat × Nat) × ParagraphIterator :=
  let newIndex := it.index + 1
  if newIndex < (it.blocks.length : Int) then
    (it.blockAt newIndex, { it with index := newIndex })
  else (none, it)

/-- `prev()` (`src/unnamed/part_000:1152-1159`). -/
def ParagraphIterator.prev (it : ParagraphIterator) :
    Option (Nat × Nat) × ParagraphIterator :=
  let newIndex := it.index - 1
  if 0 ≤ newIndex then (it.blockAt newIndex, { it with index := newIndex })
  else (none, it)

/-- `goTo(index)` (`src/unnamed/part_000:1161-1167`). -/
def ParagraphIterator.goTo (it : ParagraphIterator) (index : Int) :
    Option (Nat × Nat) × ParagraphIterator :=
  if 0 ≤ index ∧ index < (it.blocks.length : Int) then
    (it.blockAt index, { it with index := index })
  else (none, it)

/-- A node's extent for `intersectsNode`: the index of its first token
and the index just after its last token. -/
abbrev NodeSpan := Nat × Nat

/-- `Range.intersectsNode(node)`: the range's start is before the
boundary after the node and the range's end is after the boundary before
the node. -/
def intersectsSpan (r : Nat × Nat) (sp : NodeSpan) : Bool :=
  r.1 < sp.2 && sp.1 < r.2

/-- The scan loop of `findByNode` (`src/unnamed/part_000:1172-1182`):
first block intersecting the node, with its index. -/
def findNodeScan : List (Nat × Nat) → Nat → NodeSpan → Option (Nat × (Nat × Nat))
  | [], _, _ => none
  | b :: rest, i, sp =>
    if intersectsSpan b sp then some (i, b) else findNodeScan rest (i + 1) sp

/-- `findByNode(targetNode)` (`src/unnamed/part_000:1169-1184`): linear
scan for the first block intersecting the node, with fallback to
`first()`; a null node also falls back to `first()`. -/
def ParagraphIterator.findByNode (it : ParagraphIterator) (node : Option NodeSpan) :
    Option (Nat × Nat) × ParagraphIterator :=
  match node with
  | none => it.firstBlock
  | some sp =>
    match findNodeScan it.blocks 0 sp with
    | some (i, b) => (some b, { it with index := i })
    | none => it.firstBlock

/-- `compareBoundaryPoints` on boundary indices of one document: the sign
of the position difference. -/
def cmpBoundary (a b : Nat) : Int :=
  if a < b then -1 else if a = b then 0 else 1

/-- The boundary-point scan of `findByRangeAsync`
(`src/unnamed/part_000:1189-1207`): find the first block whose
`compareBoundaryPoints(Range.START_TO_END, target)` — the comparison of
the block's end with the target's start — is ≥ 0 and whose
`compareBoundaryPoints(Range.END_TO_START, target)` — the comparison of
the block's start with the target's end — is ≤ 0. -/
def findByRangeScan : List (Nat × Nat) → Nat → (Nat × Nat) → Option (Nat × (Nat × Nat))
  | [], _, _ => none
  | b :: rest, i, t =>
    let startToEnd := cmpBoundary b.2 t.1
    let endToStart := cmpBoundary b.1 t.2
    if 0 ≤ startToEnd ∧ endToStart ≤ 0 then some (i, b)
    else findByRangeScan rest (i + 1) t

/-- `findByRangeAsync(targetRange)` (`src/unnamed/part_000:1186-1214`):
the batched scan, then fallback to `findByNode` on the target's start
container (passed here as its span, since a boundary index alone does not
determine its container node). -/
def ParagraphIterator.findByRangeAsync (it : ParagraphIterator)
    (target : Nat × Nat) (startContainer : NodeSpan) :
    Option (Nat × Nat) × ParagraphIterator :=
  match findByRangeScan it.blocks 0 target with
  | some (i, b) => (some b, { it with index := i })
  | none => it.findByNode (some startContainer)

/-! ## Derived definitions used by the statements and proofs -/

/-- The content test of a token window, factored out of `rangeHasContent`. -/
def toksContent (w : List Tok) : Bool :=
  hasMeaningfulChars (toksText w) || w.any isMediaTok

/-- Whether the walker-loop body treats an element as a block boundary: a
block tag that is not a skipped pure layout container
(`src/unnamed/part_000:1067-1070`). -/
def qualifiesB (e : Nat × String × List DomNode) : Bool :=
  blockTags.contains e.2.1 && !(hasBlockChild e.2.2 && !hasDirectText e.2.2)

/-- The effect of the walker-loop body on the state at a qualifying
element: close the open range (keeping it when it has content) and open a
new one. -/
def closeOpen (toks : List Tok) (st : BuildState) (pos : Nat) : BuildState :=
  match st.last with
  | some s =>
    if rangeHasContent toks s pos then
      ⟨some (pos + 1), st.blocks ++ [(s, pos)], st.count + 1⟩
    else ⟨some (pos + 1), st.blocks, st.count⟩
  | none => ⟨some (pos + 1), st.blocks, st.count⟩

/-- The number of qualifying elements of a walker list. -/
def countQual (l : List (Nat × String × List DomNode)) : Nat :=
  (l.filter qualifiesB).length

/-- Every range the walker loop closes along `l`, starting from an open
range at `s`, has meaningful content. -/
def contentChain (toks : List Tok) : Nat → List (Nat × String × List DomNode) → Prop
  | _, [] => True
  | s, e :: rest =>
    if qualifiesB e then
      rangeHasContent toks s e.1 = true ∧ contentChain toks (e.1 + 1) rest
    else contentChain toks s rest

/-- Every range the walker loop closes along `l`, starting with no open
range, has meaningful content. -/
def contentChainAll (toks : List Tok) : List (Nat × String × List DomNode) → Prop
  | [] => True
  | e :: rest =>
    if qualifiesB e then contentChain toks (e.1 + 1) rest
    else contentChainAll toks rest

/-- The containment property claimed for `findByRangeAsync`: the block's
start boundary is at or before the target's start and the block's end
boundary is at or after the target's end. -/
def containsRange (b t : Nat × Nat) : Prop :=
  b.1 ≤ t.1 ∧ t.2 ≤ b.2

/-- A paragraph element with a single text child. -/
def pText (s : String) : DomNode :=
  .elem "p" [.text s]

/-- A two-paragraph demo document. -/
def demoDoc : List DomNode :=
  [pText "Hello", pText "World"]

/-- A demo document body with no block-tag elements. -/
def spanDoc : List DomNode :=
  [.elem "span" [.text "hi"], .text "raw"]

/-- A paragraph with one-character meaningful text. -/
def xPara : DomNode :=
  .elem "p" [.text "x"]

/-- A flat document of `n` meaningful paragraphs. -/
def repDoc (n : Nat) : List DomNode :=
  List.replicate n xPara

/-- A paragraph without meaningful content, as in the block-exclusion
property: a text paragraph whose characters are all invisible
(whitespace, non-breaking space, zero-width space, ...), or a paragraph
holding a single self-closing line break. -/
inductive EPara where
  | ws : String → EPara
  | br : EPara

/-- The document node of an `EPara`. -/
def EPara.node : EPara → DomNode
  | .ws s => .elem "p" [.text s]
  | .br => .elem "p" [.elem "br" []]

/-- Well-formedness of an `EPara`: a `ws` paragraph holds only invisible
characters. -/
def EPara.ok : EPara → Prop
  | .ws s => ∀ c ∈ s.data, isInvisible c = true
  | .br => True

/-- The body of the block-exclusion property: empty-content paragraphs
interspersed with the two text paragraphs "First" and "Second". -/
def interspersedBody (A B C : List EPara) : List DomNode :=
  A.map EPara.node ++ [pText "First"] ++ B.map EPara.node ++ [pText "Second"] ++
    C.map EPara.node

/-! ## Basic lemmas about the linearisation -/

theorem toksList_append (xs ys : List DomNode) :
    toksList (xs ++ ys) = toksList xs ++ toksList ys := by
  induction xs with
  | nil => simp [toksList]
  | cons c cs ih => simp [toksList, ih]

theorem walkerElemsList_append (xs ys : List DomNode) (base : Nat) :
    walkerElemsList base (xs ++ ys) =
      walkerElemsList base xs ++ walkerElemsList (base + (toksList xs).length) ys := by
  induction xs generalizing base with
  | nil => simp [walkerElemsList, toksList]
  | cons c cs ih =>
    simp only [List.cons_append, walkerElemsList, ih, toksList, List.length_append,
      List.append_assoc, Nat.add_assoc, List.append_eq]

theorem rangeHasContent_eq (toks : List Tok) (s e : Nat) :
    rangeHasContent toks s e = toksContent (window toks s e) := rfl

theorem toksContent_append (a b : List Tok) :
    toksContent (a ++ b) = (toksContent a || toksContent b) := by
  rw [Bool.eq_iff_iff]
  simp only [toksContent, toksText, hasMeaningfulChars, List.filterMap_append,
    List.filter_append, List.length_append, List.any_append, Bool.or_eq_true,
    decide_eq_true_eq, gt_iff_lt, add_pos_iff]
  tauto

theorem window_split (toks : List Tok) (s m e : Nat) (h1 : s ≤ m) (h2 : m ≤ e) :
    window toks s e = window toks s m ++ window toks m e := by
  unfold window
  rw [show e - s = (m - s) + (e - m) by omega, List.take_add, List.drop_drop,
    show s + (m - s) = m by omega]

theorem window_at (pre mid post : List Tok) :
    window (pre ++ mid ++ post) pre.length (pre.length + mid.length) = mid := by
  unfold window
  rw [List.append_assoc, List.drop_left, Nat.add_sub_cancel_left, List.take_left]

/-! ## Lemmas about the construction loop -/

theorem runBuild_halted (toks : List Tok) (l : List (Nat × String × List DomNode))
    (st : BuildState) (h : MAX_BLOCKS ≤ st.count) : runBuild toks l st = st := by
  cases l with
  | nil => rfl
  | cons e rest => simp [runBuild, Nat.not_lt.mpr h]

theorem runBuild_append (toks : List Tok) (l1 l2 : List (Nat × String × List DomNode))
    (st : BuildState) :
    runBuild toks (l1 ++ l2) st = runBuild toks l2 (runBuild toks l1 st) := by
  induction l1 generalizing st with
  | nil => rfl
  | cons e rest ih =>
    by_cases h : st.count < MAX_BLOCKS
    · simp [runBuild, h, ih]
    · simp [runBuild, h, runBuild_halted _ _ _ (Nat.not_lt.mp h)]

theorem processElem_eq (toks : List Tok) (st : BuildState)
    (e : Nat × String × List DomNode) :
    processElem toks st e = if qualifiesB e then closeOpen toks st e.1 else st := by
  rcases e with ⟨pos, tag, cs⟩
  rcases st with ⟨last, blocks, count⟩
  by_cases h1 : tag ∈ blockTags <;>
    by_cases h2 : (hasBlockChild cs && !hasDirectText cs) = true <;>
      cases last <;>
        (simp [processElem, qualifiesB, closeOpen, h1, h2]
         try (split <;> rfl))

theorem runBuild_nonblock (toks : List Tok) (l : List (Nat × String × List DomNode))
    (st : BuildState) (h : ∀ e ∈ l, qualifiesB e = false) :
    runBuild toks l st = st := by
  induction l generalizing st with
  | nil => rfl
  | cons e rest ih =>
    have he : qualifiesB e = false := h e (by simp)
    have hrest : ∀ x ∈ rest, qualifiesB x = false := fun x hx => h x (by simp [hx])
    by_cases hc : st.count < MAX_BLOCKS
    · simp [runBuild, hc, processElem_eq, he, ih _ hrest]
    · simp [runBuild, hc]

theorem cmpBoundary_nonneg (a b : Nat) : 0 ≤ cmpBoundary a b ↔ b ≤ a := by
  unfold cmpBoundary
  split <;> rename_i h1
  · omega
  · split <;> omega

theorem cmpBoundary_nonpos (a b : Nat) : cmpBoundary a b ≤ 0 ↔ a ≤ b := by
  unfold cmpBoundary
  split <;> rename_i h1
  · omega
  · split <;> omega

/-! ## Claim C7 -/

/-- C7: for every iterator over a block sequence of length `N` and every
current position, `goTo(N)` and `goTo(-1)` return null and leave
`currentIndex` unchanged, and `next()` called when `currentIndex` is the
last index `N - 1` returns null and leaves `currentIndex` unchanged (no
wraparound). -/
theorem claim_C7_navigation_bounds (bs : List (Nat × Nat)) (i : Int) :
    ParagraphIterator.goTo ⟨bs, i⟩ (bs.length : Int) = (none, ⟨bs, i⟩) ∧
    ParagraphIterator.goTo ⟨bs, i⟩ (-1) = (none, ⟨bs, i⟩) ∧
    ParagraphIterator.next ⟨bs, (bs.length : Int) - 1⟩ =
      (none, ⟨bs, (bs.length : Int) - 1⟩) := by
  refine ⟨?_, ?_, ?_⟩
  · simp only [ParagraphIterator.goTo]
    rw [if_neg (by omega)]
  · simp only [ParagraphIterator.goTo]
    rw [if_neg (by omega)]
  · simp only [ParagraphIterator.next]
    rw [if_neg (by omega)]

/-! ## Claim C9 -/

/-- C9: a freshly constructed `ParagraphIterator` is unpositioned: its
`currentIndex` is `-1` and `current()` returns null; from this state
`prev()` returns null and leaves the index at `-1`, while `next()` on a
non-empty sequence positions the cursor at index `0` and returns the
first block. -/
theorem claim_C9_fresh_iterator (body : List DomNode) :
    (ParagraphIterator.create body).index = -1 ∧
    (ParagraphIterator.create body).current = none ∧
    (ParagraphIterator.create body).prev = (none, ParagraphIterator.create body) ∧
    (∀ b rest, (ParagraphIterator.create body).blocks = b :: rest →
      (ParagraphIterator.create body).next =
        (some b, ⟨(ParagraphIterator.create body).blocks, 0⟩)) := by
  refine ⟨rfl, ?_, ?_, ?_⟩
  · simp [ParagraphIterator.current, ParagraphIterator.blockAt, ParagraphIterator.create]
  · simp only [ParagraphIterator.prev, ParagraphIterator.create]
    rw [if_neg (by omega)]
  · intro b rest h
    simp only [ParagraphIterator.next, ParagraphIterator.create] at h ⊢
    rw [if_pos (by simp [h])]
    simp [ParagraphIterator.blockAt, h]

/-- Witness for C9 on a concrete two-paragraph document. -/
theorem claim_C9_witness :
    (ParagraphIterator.create demoDoc).next =
      (some (1, 7), ⟨(ParagraphIterator.create demoDoc).blocks, 0⟩) :=
  (claim_C9_fresh_iterator demoDoc).2.2.2 (1, 7) [(8, 14)] rfl

/-! ## Claim C1 -/

/-- C1 (counterexample): on the two-paragraph demo document the
boundary-point scan of `findByRangeAsync` returns the first block
(boundaries 1 to 7, the text "Hello") for the target range (2, 13), which
extends into the second paragraph; the returned block does not contain
the target range, refuting the claim as stated. -/
theorem claim_C1_counterexample :
    ((ParagraphIterator.create demoDoc).findByRangeAsync (2, 13) (1, 6)).1 = some (1, 7) ∧
    ¬ containsRange (1, 7) (2, 13) :=
  ⟨rfl, by unfold containsRange; decide⟩

/-- C1 (amended): the block found by the boundary-point scan of
`findByRangeAsync` intersects the target range — the block's end boundary
is at or after the target's start and the block's start boundary is at or
before the target's end (the scan's two `compareBoundaryPoints` tests
compare block end with target start and block start with target end, so
the first intersecting block, not a containing one, is returned). -/
theorem claim_C1_amended_intersects (blocks : List (Nat × Nat)) (i0 : Nat)
    (t : Nat × Nat) (i : Nat) (b : Nat × Nat)
    (h : findByRangeScan blocks i0 t = some (i, b)) :
    t.1 ≤ b.2 ∧ b.1 ≤ t.2 := by
  induction blocks generalizing i0 with
  | nil => simp [findByRangeScan] at h
  | cons hd rest ih =>
    rw [findByRangeScan] at h
    split at h
    · rename_i hcond
      obtain ⟨h1, h2⟩ := hcond
      cases h
      exact ⟨(cmpBoundary_nonneg _ _).mp h1, (cmpBoundary_nonpos _ _).mp h2⟩
    · exact ih _ h

/-- Witness for the amended C1 at the demo document's block list and the
counterexample target range. -/
theorem claim_C1_witness : (2 : Nat) ≤ 7 ∧ (1 : Nat) ≤ 13 :=
  claim_C1_amended_intersects [(1, 7), (8, 14)] 0 (2, 13) 0 (1, 7) rfl

/-! ## Claim C10 -/

/-- C10: for every document body containing no block-tag elements at all,
`createAsync` yields at most one block: a single range spanning the
entire body, kept exactly when that range has meaningful content;
otherwise the sequence is empty. -/
theorem claim_C10_no_block_tags (body : List DomNode)
    (h : ∀ e ∈ walkerElemsList 0 body, blockTags.contains e.2.1 = false) :
    createBlocks body =
      if rangeHasContent (toksList body) (initialStart body) (toksList body).length
      then [(initialStart body, (toksList body).length)]
      else [] := by
  have hq : ∀ e ∈ walkerElemsList 0 body, qualifiesB e = false := by
    intro e he
    have := h e he
    simp only [qualifiesB, this, Bool.false_and]
  have hrun := runBuild_nonblock (toksList body) (walkerElemsList 0 body) ⟨none, [], 0⟩ hq
  simp only [createBlocks, hrun]
  norm_num [MAX_BLOCKS]

/-- Witness for C10: a body with only a span element and raw text yields
the single whole-body block. -/
theorem claim_C10_witness : createBlocks spanDoc = [(1, 7)] := by
  rw [claim_C10_no_block_tags spanDoc (by decide)]
  decide

/-! ## Font-stack lemmas -/

theorem mem_serif_filter {x serif cjk : String}
    (hx : x ∈ SERIF_FONTS.filter (fun font =>
      font != serif && font != cjk && !(lastSerifFonts.contains font))) :
    x ∈ SERIF_FONTS ∧ x ≠ serif ∧ x ≠ cjk ∧ x ∉ lastSerifFonts := by
  have h1 := List.mem_filter.mp hx
  have h2 := h1.2
  simp only [Bool.and_eq_true, bne_iff_ne, Bool.not_eq_true', List.contains,
    List.elem_eq_mem, decide_eq_false_iff_not] at h2
  exact ⟨h1.1, h2.1.1, h2.1.2, h2.2⟩

theorem mem_ne_filter {x a b : String} {l : List String}
    (hx : x ∈ l.filter (fun font => font != a && font != b)) :
    x ∈ l ∧ x ≠ a ∧ x ≠ b := by
  have h1 := List.mem_filter.mp hx
  have h2 := h1.2
  simp only [Bool.and_eq_true, bne_iff_ne] at h2
  exact ⟨h1.1, h2.1, h2.2⟩

theorem mem_last_filter {x cjk : String}
    (hx : x ∈ lastSerifFonts.filter (fun font =>
      SERIF_FONTS.contains font && !(lastSerifFonts.contains cjk))) :
    x ∈ lastSerifFonts ∧ x ∈ SERIF_FONTS ∧ cjk ∉ lastSerifFonts := by
  have h1 := List.mem_filter.mp hx
  have h2 := h1.2
  simp only [Bool.and_eq_true, Bool.not_eq_true', List.contains, List.elem_eq_mem,
    decide_eq_true_eq, decide_eq_false_iff_not] at h2
  exact ⟨h1.1, h2.1, h2.2⟩

theorem mem_ite_single {a cjk chosen : String}
    (ha : a ∈ if cjk != chosen then ([cjk] : List String) else []) :
    a = cjk ∧ cjk ≠ chosen := by
  split at ha
  · rename_i hc
    rw [List.mem_singleton] at ha
    exact ⟨ha, bne_iff_ne.mp hc⟩
  · exact absurd ha (List.not_mem_nil a)

theorem monospaceFonts_nodup (monospace : String) : (monospaceFonts monospace).Nodup := by
  unfold monospaceFonts
  refine List.nodup_cons.mpr ⟨?_, List.Nodup.filter _ (by decide)⟩
  intro hmem
  have := List.of_mem_filter hmem
  simp at this

theorem serifFonts_nodup (serif cjk : String) (h1 : serif ∉ lastSerifFonts)
    (h2 : serif ∉ FALLBACK_FONTS) (h3 : cjk ∉ FALLBACK_FONTS) :
    (serifFonts serif cjk).Nodup := by
  have dSC : ∀ x ∈ SERIF_FONTS, x ∉ CJK_SERIF_FONTS := by decide
  have dSF : ∀ x ∈ SERIF_FONTS, x ∉ FALLBACK_FONTS := by decide
  have dCL : ∀ x ∈ CJK_SERIF_FONTS, x ∉ lastSerifFonts := by decide
  have dCF : ∀ x ∈ CJK_SERIF_FONTS, x ∉ FALLBACK_FONTS := by decide
  have dLF : ∀ x ∈ lastSerifFonts, x ∉ FALLBACK_FONTS := by decide
  unfold serifFonts
  rw [List.nodup_cons]
  constructor
  · intro hmem
    simp only [List.mem_append] at hmem
    rcases hmem with ((((hm | hm) | hm) | hm) | hm)
    · exact (mem_ite_single hm).2 (mem_ite_single hm).1.symm
    · exact (mem_serif_filter hm).2.1 rfl
    · exact (mem_ne_filter hm).2.1 rfl
    · exact h1 (mem_last_filter hm).1
    · exact h2 hm
  · simp only [List.nodup_append, List.disjoint_left, List.mem_append]
    refine ⟨⟨⟨⟨?_, ?_, ?_⟩, ?_, ?_⟩, ?_, ?_⟩, ?_, ?_⟩
    · split <;> simp
    · exact List.Nodup.filter _ (by decide)
    · intro a ha hb
      exact (mem_serif_filter hb).2.2.1 (mem_ite_single ha).1
    · exact List.Nodup.filter _ (by decide)
    · intro a ha hb
      rcases ha with ha | ha
      · exact (mem_ne_filter hb).2.2 (mem_ite_single ha).1
      · exact dSC a (mem_serif_filter ha).1 (mem_ne_filter hb).1
    · exact List.Nodup.filter _ (by decide)
    · intro a ha hb
      have hbl := mem_last_filter hb
      rcases ha with (ha | ha) | ha
      · exact hbl.2.2 ((mem_ite_single ha).1 ▸ hbl.1)
      · exact (mem_serif_filter ha).2.2.2 hbl.1
      · exact dCL a (mem_ne_filter ha).1 hbl.1
    · decide
    · intro a ha hb
      rcases ha with ((ha | ha) | ha) | ha
      · exact h3 ((mem_ite_single ha).1 ▸ hb)
      · exact dSF a (mem_serif_filter ha).1 hb
      · exact dCF a (mem_ne_filter ha).1 hb
      · exact dLF a (mem_last_filter ha).1 hb

theorem sansSerifFonts_nodup (sansSerif cjk : String)
    (h2 : sansSerif ∉ FALLBACK_FONTS) (h3 : cjk ∉ FALLBACK_FONTS) :
    (sansSerifFonts sansSerif cjk).Nodup := by
  have dSC : ∀ x ∈ SANS_SERIF_FONTS, x ∉ CJK_SANS_SERIF_FONTS := by decide
  have dSF : ∀ x ∈ SANS_SERIF_FONTS, x ∉ FALLBACK_FONTS := by decide
  have dCF : ∀ x ∈ CJK_SANS_SERIF_FONTS, x ∉ FALLBACK_FONTS := by decide
  unfold sansSerifFonts
  rw [List.nodup_cons]
  constructor
  · intro hmem
    simp only [List.mem_append] at hmem
    rcases hmem with ((hm | hm) | hm) | hm
    · exact (mem_ite_single hm).2 (mem_ite_single hm).1.symm
    · exact (mem_ne_filter hm).2.1 rfl
    · exact (mem_ne_filter hm).2.1 rfl
    · exact h2 hm
  · simp only [List.nodup_append, List.disjoint_left, List.mem_append]
    refine ⟨⟨⟨?_, ?_, ?_⟩, ?_, ?_⟩, ?_, ?_⟩
    · split <;> simp
    · exact List.Nodup.filter _ (by decide)
    · intro a ha hb
      exact (mem_ne_filter hb).2.2 (mem_ite_single ha).1
    · exact List.Nodup.filter _ (by decide)
    · intro a ha hb
      rcases ha with ha | ha
      · exact (mem_ne_filter hb).2.2 (mem_ite_single ha).1
      · exact dSC a (mem_ne_filter ha).1 (mem_ne_filter hb).1
    · decide
    · intro a ha hb
      rcases ha with (ha | ha) | ha
      · exact h3 ((mem_ite_single ha).1 ▸ hb)
      · exact dSF a (mem_ne_filter ha).1 hb
      · exact dCF a (mem_ne_filter ha).1 hb

/-! ## Claim C2 -/

/-- C2 (counterexample): with the chosen serif font "Georgia" (a
last-resort member of the static serif list) and a CJK default that is
not a last-resort font, the generated serif list contains "Georgia"
twice — once at the head and once re-appended at the end — refuting the
no-duplicates claim. -/
theorem claim_C2_counterexample :
    ¬ (serifFonts "Georgia" "Noto Serif CJK SC").Nodup := by decide

/-- C2 (amended): every generated font list has the user-chosen font for
its category first; the monospace list never contains duplicates, and the
serif and sans-serif lists contain no duplicates provided the chosen
serif font is not one of the two last-resort fonts and neither the chosen
fonts nor the CJK-default font is one of the static fallback fonts. -/
theorem claim_C2_amended_font_lists (serif sansSerif monospace cjk : String) :
    (serifFonts serif cjk).head? = some serif ∧
    (sansSerifFonts sansSerif cjk).head? = some sansSerif ∧
    (monospaceFonts monospace).head? = some monospace ∧
    (monospaceFonts monospace).Nodup ∧
    (serif ∉ lastSerifFonts → serif ∉ FALLBACK_FONTS → cjk ∉ FALLBACK_FONTS →
      (serifFonts serif cjk).Nodup) ∧
    (sansSerif ∉ FALLBACK_FONTS → cjk ∉ FALLBACK_FONTS →
      (sansSerifFonts sansSerif cjk).Nodup) :=
  ⟨rfl, rfl, rfl, monospaceFonts_nodup monospace,
    serifFonts_nodup serif cjk, sansSerifFonts_nodup sansSerif cjk⟩

/-- Witness for the amended C2 at a concrete configuration. -/
theorem claim_C2_witness :
    (serifFonts "Bitter" "Noto Serif CJK SC").Nodup ∧
    (sansSerifFonts "Roboto" "Noto Sans CJK SC").Nodup :=
  ⟨(claim_C2_amended_font_lists "Bitter" "Roboto" "Fira Code" "Noto Serif CJK SC").2.2.2.2.1
      (by decide) (by decide) (by decide),
    (claim_C2_amended_font_lists "Bitter" "Roboto" "Fira Code" "Noto Sans CJK SC").2.2.2.2.2
      (by decide) (by decide)⟩

/-! ## Claim C3 -/

/-- C3 (counterexample): the generated monospace list is built without the
fallback fonts, so for the chosen monospace font "Courier New" it does
not end with `FALLBACK_FONTS`, refuting the claim for the `--monospace`
stack. -/
theorem claim_C3_counterexample :
    ¬ ∃ l, monospaceFonts "Courier New" = l ++ FALLBACK_FONTS := by
  rintro ⟨l, hl⟩
  have hm : "MiSans L3" ∈ monospaceFonts "Courier New" := by
    rw [hl]
    simp [FALLBACK_FONTS]
  revert hm
  decide

/-- C3 (amended): the static fallback fonts are appended to the serif and
the sans-serif stacks — each of those two lists ends with
`FALLBACK_FONTS` (just before the generic CSS keyword added in the CSS
text) — but not to the monospace stack, which contains no fallback font
unless the user chose one as the monospace font. -/
theorem claim_C3_amended_fallbacks (serif sansSerif monospace cjk : String) :
    (∃ l, serifFonts serif cjk = l ++ FALLBACK_FONTS) ∧
    (∃ l, sansSerifFonts sansSerif cjk = l ++ FALLBACK_FONTS) ∧
    (monospace ∉ FALLBACK_FONTS → ∀ f ∈ FALLBACK_FONTS, f ∉ monospaceFonts monospace) := by
  have dMF : ∀ x ∈ MONOSPACE_FONTS, x ∉ FALLBACK_FONTS := by decide
  refine ⟨⟨serif :: ((if cjk != serif then [cjk] else []) ++
      SERIF_FONTS.filter (fun font =>
        font != serif && font != cjk && !(lastSerifFonts.contains font)) ++
      CJK_SERIF_FONTS.filter (fun font => font != serif && font != cjk) ++
      lastSerifFonts.filter (fun font =>
        SERIF_FONTS.contains font && !(lastSerifFonts.contains cjk))), rfl⟩,
    ⟨sansSerif :: ((if cjk != sansSerif then [cjk] else []) ++
      SANS_SERIF_FONTS.filter (fun font => font != sansSerif && font != cjk) ++
      CJK_SANS_SERIF_FONTS.filter (fun font => font != sansSerif && font != cjk)), rfl⟩,
    ?_⟩
  intro h f hf hmem
  rcases List.mem_cons.mp hmem with hm | hm
  · exact h (hm ▸ hf)
  · exact dMF f (List.mem_filter.mp hm).1 hf

/-- Witness for the amended C3 at a concrete configuration. -/
theorem claim_C3_witness : ∀ f ∈ FALLBACK_FONTS, f ∉ monospaceFonts "Fira Code" :=
  (claim_C3_amended_fallbacks "Bitter" "Roboto" "Fira Code" "Noto Serif CJK SC").2.2
    (by decide)

/-! ## Claim C8 -/

/-- C8 (counterexample): with the CJK-default font "Georgia", the code's
re-append condition `!lastSerifFonts.includes(defaultCJKFont)` is false
for the whole list, so "Times New Roman" is not re-appended — and indeed
does not appear in the serif stack at all — although it belongs to
`SERIF_FONTS` and differs from the CJK-default, refuting the claimed
per-font iff. -/
theorem claim_C8_counterexample :
    "Times New Roman" ∈ SERIF_FONTS ∧ "Times New Roman" ≠ "Georgia" ∧
    "Times New Roman" ∉ serifFonts "Bitter" "Georgia" := by decide

/-- C8 (amended): when the chosen serif font is not itself a last-resort
font, a last-resort font (Georgia or Times New Roman) appears in the
generated serif stack iff it is the CJK-default font or it belongs to the
static serif list and the CJK-default font is not one of the two
last-resort fonts; the re-append condition is per-list (on the
CJK-default), not per-font. -/
theorem claim_C8_amended_last_resort (serif cjk f : String)
    (hf : f ∈ lastSerifFonts) (hs : serif ∉ lastSerifFonts) :
    f ∈ serifFonts serif cjk ↔
      f = cjk ∨ (f ∈ SERIF_FONTS ∧ cjk ∉ lastSerifFonts) := by
  have dCL : ∀ x ∈ CJK_SERIF_FONTS, x ∉ lastSerifFonts := by decide
  have dLF : ∀ x ∈ lastSerifFonts, x ∉ FALLBACK_FONTS := by decide
  unfold serifFonts
  simp only [List.mem_cons, List.mem_append]
  constructor
  · rintro (hm | ((((hm | hm) | hm) | hm) | hm))
    · exact absurd (hm ▸ hf) hs
    · exact Or.inl (mem_ite_single hm).1
    · exact absurd hf (mem_serif_filter hm).2.2.2
    · exact absurd hf (dCL f (mem_ne_filter hm).1)
    · exact Or.inr ⟨(mem_last_filter hm).2.1, (mem_last_filter hm).2.2⟩
    · exact absurd hm (dLF f hf)
  · rintro (hm | ⟨hmS, hmL⟩)
    · refine Or.inr (Or.inl (Or.inl (Or.inl (Or.inl ?_))))
      have hne : cjk ≠ serif := fun he => hs (he ▸ hm ▸ hf)
      rw [if_pos (bne_iff_ne.mpr hne)]
      exact hm ▸ List.mem_singleton.mpr rfl
    · refine Or.inr (Or.inl (Or.inr ?_))
      refine List.mem_filter.mpr ⟨hf, ?_⟩
      simp only [Bool.and_eq_true, Bool.not_eq_true', List.contains, List.elem_eq_mem,
        decide_eq_true_eq, decide_eq_false_iff_not]
      exact ⟨hmS, hmL⟩

/-- Witness for the amended C8 at a concrete configuration. -/
theorem claim_C8_witness :
    "Georgia" ∈ serifFonts "Bitter" "Noto Serif CJK SC" ↔
      "Georgia" = "Noto Serif CJK SC" ∨
        ("Georgia" ∈ SERIF_FONTS ∧ "Noto Serif CJK SC" ∉ lastSerifFonts) :=
  claim_C8_amended_last_resort "Bitter" "Noto Serif CJK SC" "Georgia" (by decide) (by decide)

/-! ## The block cap -/

theorem countQual_cons_pos {e : Nat × String × List DomNode}
    (l : List (Nat × String × List DomNode)) (h : qualifiesB e = true) :
    countQual (e :: l) = countQual l + 1 := by
  simp [countQual, List.filter_cons, h]

theorem countQual_cons_neg {e : Nat × String × List DomNode}
    (l : List (Nat × String × List DomNode)) (h : qualifiesB e = false) :
    countQual (e :: l) = countQual l := by
  simp [countQual, List.filter_cons, h]

theorem runBuild_chain (toks : List Tok) (elems : List (Nat × String × List DomNode)) :
    ∀ (s k : Nat) (bl : List (Nat × Nat)), k < MAX_BLOCKS → bl.length = k →
    contentChain toks s elems → MAX_BLOCKS - k ≤ countQual elems →
    (runBuild toks elems ⟨some s, bl, k⟩).count = MAX_BLOCKS ∧
    (runBuild toks elems ⟨some s, bl, k⟩).blocks.length = MAX_BLOCKS := by
  induction elems with
  | nil =>
    intro s k bl hk hbl _ hcount
    simp [countQual, List.filter_nil] at hcount
    omega
  | cons e rest ih =>
    intro s k bl hk hbl hchain hcount
    rw [runBuild, if_pos (show (BuildState.mk (some s) bl k).count < MAX_BLOCKS from hk),
      processElem_eq]
    by_cases hq : qualifiesB e = true
    · rw [if_pos hq]
      rw [contentChain, if_pos hq] at hchain
      simp only [closeOpen, if_pos hchain.1]
      rw [countQual_cons_pos rest hq] at hcount
      by_cases hk1 : k + 1 < MAX_BLOCKS
      · exact ih (e.1 + 1) (k + 1) (bl ++ [(s, e.1)]) hk1 (by simp [hbl]) hchain.2
          (by omega)
      · have hkeq : k + 1 = MAX_BLOCKS := by omega
        rw [runBuild_halted _ _ _ (by simp [hkeq])]
        simp [hbl, hkeq]
    · have hq0 : qualifiesB e = false := by revert hq; cases qualifiesB e <;> simp
      rw [if_neg hq]
      rw [contentChain, if_neg hq] at hchain
      rw [countQual_cons_neg rest hq0] at hcount
      exact ih s k bl hk hbl hchain hcount

theorem runBuild_chainAll (toks : List Tok) (elems : List (Nat × String × List DomNode)) :
    contentChainAll toks elems → MAX_BLOCKS < countQual elems →
    (runBuild toks elems ⟨none, [], 0⟩).count = MAX_BLOCKS ∧
    (runBuild toks elems ⟨none, [], 0⟩).blocks.length = MAX_BLOCKS := by
  induction elems with
  | nil =>
    intro _ hcount
    simp [countQual, List.filter_nil] at hcount
  | cons e rest ih =>
    intro hchain hcount
    rw [runBuild, if_pos (show (BuildState.mk none [] 0).count < MAX_BLOCKS by
      simp [MAX_BLOCKS]), processElem_eq]
    by_cases hq : qualifiesB e = true
    · rw [if_pos hq]
      rw [contentChainAll, if_pos hq] at hchain
      rw [countQual_cons_pos rest hq] at hcount
      simp only [closeOpen]
      exact runBuild_chain toks rest (e.1 + 1) 0 [] (by simp [MAX_BLOCKS]) rfl hchain
        (by omega)
    · have hq0 : qualifiesB e = false := by revert hq; cases qualifiesB e <;> simp
      rw [if_neg hq]
      rw [contentChainAll, if_neg hq] at hchain
      rw [countQual_cons_neg rest hq0] at hcount
      exact ih hchain hcount

/-! ## Claim C6 -/

/-- C6: for every document whose walker sequence has more than 5000
qualifying block-tag elements, each closed inter-element range having
meaningful content, `createAsync` yields exactly 5000 blocks — the blocks
collected before the cap was reached — and (being a total function in
this model) does not throw. -/
theorem claim_C6_block_cap (body : List DomNode)
    (hchain : contentChainAll (toksList body) (walkerElemsList 0 body))
    (hcount : MAX_BLOCKS < countQual (walkerElemsList 0 body)) :
    (createBlocks body).length = MAX_BLOCKS := by
  have h := runBuild_chainAll (toksList body) (walkerElemsList 0 body) hchain hcount
  simp only [createBlocks, if_pos (le_of_eq h.1.symm)]
  exact h.2

theorem chainRepAux (n : Nat) : ∀ (Pre Post : List Tok),
    contentChain (Pre ++ [Tok.ch 'x', Tok.closeTag "p"] ++ toksList (repDoc n) ++ Post)
      Pre.length (walkerElemsList (Pre.length + 2) (repDoc n)) := by
  induction n with
  | zero =>
    intro Pre Post
    simp [repDoc, walkerElemsList, contentChain]
  | succ m ih =>
    intro Pre Post
    have hrep : repDoc (m + 1) = xPara :: repDoc m := by
      simp [repDoc, List.replicate_succ]
    have helems : walkerElemsList (Pre.length + 2) (repDoc (m + 1)) =
        (Pre.length + 2, "p", [DomNode.text "x"]) ::
          walkerElemsList (Pre.length + 2 + 3) (repDoc m) := by
      rw [hrep, walkerElemsList]
      simp [xPara, DomNode.walkerElems, walkerElemsList, DomNode.toks, toksList]
    have hq : qualifiesB (Pre.length + 2, "p", [DomNode.text "x"]) = true := rfl
    rw [helems, contentChain, if_pos hq]
    constructor
    · show rangeHasContent
          (Pre ++ [Tok.ch 'x', Tok.closeTag "p"] ++ toksList (repDoc (m + 1)) ++ Post)
          Pre.length (Pre.length + 2) = true
      have hw : window
          (Pre ++ [Tok.ch 'x', Tok.closeTag "p"] ++ toksList (repDoc (m + 1)) ++ Post)
          Pre.length (Pre.length + 2) = [Tok.ch 'x', Tok.closeTag "p"] := by
        have hbase := window_at Pre [Tok.ch 'x', Tok.closeTag "p"]
          (toksList (repDoc (m + 1)) ++ Post)
        simpa using hbase
      rw [rangeHasContent_eq, hw]
      decide
    · show contentChain
          (Pre ++ [Tok.ch 'x', Tok.closeTag "p"] ++ toksList (repDoc (m + 1)) ++ Post)
          (Pre.length + 2 + 1) (walkerElemsList (Pre.length + 2 + 3) (repDoc m))
      have hx : "x".data = ['x'] := rfl
      have htoks : Pre ++ [Tok.ch 'x', Tok.closeTag "p"] ++ toksList (repDoc (m + 1)) ++ Post =
          (Pre ++ [Tok.ch 'x', Tok.closeTag "p", Tok.openTag "p"]) ++
            [Tok.ch 'x', Tok.closeTag "p"] ++ toksList (repDoc m) ++ Post := by
        rw [hrep]
        simp [toksList, DomNode.toks, xPara, hx, List.append_assoc]
      rw [htoks]
      have hlen : (Pre ++ [Tok.ch 'x', Tok.closeTag "p", Tok.openTag "p"]).length =
          Pre.length + 3 := by simp
      have := ih (Pre ++ [Tok.ch 'x', Tok.closeTag "p", Tok.openTag "p"]) Post
      rw [hlen] at this
      convert this using 2

theorem chainAll_rep (n : Nat) :
    contentChainAll (toksList (repDoc n)) (walkerElemsList 0 (repDoc n)) := by
  cases n with
  | zero => simp [repDoc, walkerElemsList, contentChainAll]
  | succ m =>
    have hrep : repDoc (m + 1) = xPara :: repDoc m := by
      simp [repDoc, List.replicate_succ]
    have helems : walkerElemsList 0 (repDoc (m + 1)) =
        (0, "p", [DomNode.text "x"]) :: walkerElemsList 3 (repDoc m) := by
      rw [hrep, walkerElemsList]
      simp [xPara, DomNode.walkerElems, walkerElemsList, DomNode.toks, toksList]
    rw [helems, contentChainAll,
      if_pos (show qualifiesB (0, "p", [DomNode.text "x"]) = true by rfl)]
    show contentChain (toksList (repDoc (m + 1))) 1 (walkerElemsList 3 (repDoc m))
    have hx : "x".data = ['x'] := rfl
    have htoks : toksList (repDoc (m + 1)) =
        [Tok.openTag "p"] ++ [Tok.ch 'x', Tok.closeTag "p"] ++ toksList (repDoc m) ++ [] := by
      rw [hrep]
      simp [toksList, DomNode.toks, xPara, hx]
    rw [htoks]
    have hchain := chainRepAux m [Tok.openTag "p"] []
    simpa using hchain

theorem countQual_rep (n : Nat) : ∀ base, countQual (walkerElemsList base (repDoc n)) = n := by
  induction n with
  | zero =>
    intro base
    simp [repDoc, walkerElemsList, countQual]
  | succ m ih =>
    intro base
    have hrep : repDoc (m + 1) = xPara :: repDoc m := by
      simp [repDoc, List.replicate_succ]
    have helems : walkerElemsList base (repDoc (m + 1)) =
        (base, "p", [DomNode.text "x"]) :: walkerElemsList (base + 3) (repDoc m) := by
      rw [hrep, walkerElemsList]
      simp [xPara, DomNode.walkerElems, walkerElemsList, DomNode.toks, toksList]
    rw [helems, countQual_cons_pos _ (show qualifiesB (base, "p", [DomNode.text "x"]) = true
      by rfl), ih]

/-- Witness for C6: a flat document of 5001 meaningful paragraphs yields
exactly 5000 blocks. -/
theorem claim_C6_witness : (createBlocks (repDoc 5001)).length = MAX_BLOCKS :=
  claim_C6_block_cap (repDoc 5001) (chainAll_rep 5001)
    (by rw [countQual_rep 5001 0]; norm_num [MAX_BLOCKS])

/-! ## Lemmas for the block-exclusion property -/

theorem toksText_map_ch (cs : List Char) (t : String) :
    toksText (cs.map Tok.ch ++ [Tok.closeTag t]) = cs := by
  induction cs with
  | nil => rfl
  | cons c rest ih =>
    simpa [toksText, List.filterMap_cons] using ih

theorem ws_not_media (cs : List Char) : (cs.map Tok.ch).any isMediaTok = false := by
  induction cs with
  | nil => rfl
  | cons c rest ih => simp [isMediaTok, ih]

theorem toksContent_ws {cs : List Char} (t : String) (hMedia : MEDIA_TAGS.contains t = false)
    (h : ∀ c ∈ cs, isInvisible c = true) :
    toksContent (cs.map Tok.ch ++ [Tok.closeTag t]) = false := by
  simp only [toksContent, toksText_map_ch, Bool.or_eq_false_iff]
  constructor
  · simp only [hasMeaningfulChars, decide_eq_false_iff_not, Nat.not_lt, Nat.le_zero,
      List.length_eq_zero]
    apply List.filter_eq_nil_iff.mpr
    intro c hc
    simp [h c hc]
  · have ht : t ∉ MEDIA_TAGS := by
      intro hmem
      rw [List.contains, List.elem_eq_mem, decide_eq_true hmem] at hMedia
      exact Bool.true_eq_false.mp hMedia
    simp [List.any_append, ws_not_media, isMediaTok, ht]

theorem runBuild_qual_single (toks : List Tok) (e : Nat × String × List DomNode)
    (st : BuildState) (hk : st.count < MAX_BLOCKS) (h : qualifiesB e = true) :
    runBuild toks [e] st = closeOpen toks st e.1 := by
  rw [runBuild, if_pos hk, processElem_eq, if_pos h, runBuild]

theorem runBuild_nonqual_single (toks : List Tok) (e : Nat × String × List DomNode)
    (st : BuildState) (h : qualifiesB e = false) :
    runBuild toks [e] st = st := by
  rw [runBuild]
  split
  · rw [processElem_eq, if_neg (by simp [h]), runBuild]
  · rfl

theorem closeOpen_some (toks : List Tok) (s base : Nat) (bl : List (Nat × Nat)) (k : Nat) :
    closeOpen toks ⟨some s, bl, k⟩ base =
      ⟨some (base + 1), bl ++ (if rangeHasContent toks s base then [(s, base)] else []),
        k + (if rangeHasContent toks s base then 1 else 0)⟩ := by
  by_cases hc : rangeHasContent toks s base = true <;> simp [closeOpen, hc]

theorem closeOpen_none (toks : List Tok) (base : Nat) (bl : List (Nat × Nat)) (k : Nat) :
    closeOpen toks ⟨none, bl, k⟩ base = ⟨some (base + 1), bl, k⟩ := rfl

theorem pText_toks (s0 : String) :
    (pText s0).toks = Tok.openTag "p" :: (s0.data.map Tok.ch ++ [Tok.closeTag "p"]) := by
  simp [pText, DomNode.toks, toksList]

theorem pText_elems (s0 : String) (base : Nat) :
    DomNode.walkerElems base (pText s0) = [(base, "p", [DomNode.text s0])] := by
  simp [pText, DomNode.walkerElems, walkerElemsList]

theorem epara_toks_ws (s0 : String) :
    (EPara.ws s0).node.toks = Tok.openTag "p" :: (s0.data.map Tok.ch ++ [Tok.closeTag "p"]) := by
  simp [EPara.node, DomNode.toks, toksList]

theorem epara_toks_br :
    EPara.br.node.toks =
      [Tok.openTag "p", Tok.openTag "br", Tok.closeTag "br", Tok.closeTag "p"] := rfl

theorem epara_elems_ws (s0 : String) (base : Nat) :
    DomNode.walkerElems base (EPara.ws s0).node = [(base, "p", [DomNode.text s0])] := by
  simp [EPara.node, DomNode.walkerElems, walkerElemsList]

theorem epara_elems_br (base : Nat) :
    DomNode.walkerElems base EPara.br.node =
      [(base, "p", [DomNode.elem "br" []]), (base + 1, "br", [])] := by
  simp [EPara.node, DomNode.walkerElems, walkerElemsList, DomNode.toks, toksList]

theorem epara_toks_pos (p : EPara) : 1 ≤ p.node.toks.length := by
  cases p with
  | ws s0 => rw [epara_toks_ws]; simp
  | br => rw [epara_toks_br]; simp

theorem epStepSome (p : EPara) (toks : List Tok) (base s : Nat)
    (bl : List (Nat × Nat)) (k : Nat) (hk : k < MAX_BLOCKS) :
    runBuild toks (DomNode.walkerElems base p.node) ⟨some s, bl, k⟩ =
      ⟨some (base + 1),
        bl ++ (if rangeHasContent toks s base then [(s, base)] else []),
        k + (if rangeHasContent toks s base then 1 else 0)⟩ := by
  cases p with
  | ws s0 =>
    rw [epara_elems_ws,
      runBuild_qual_single toks _ _ (show (BuildState.mk (some s) bl k).count < MAX_BLOCKS
        from hk) (show qualifiesB (base, "p", [DomNode.text s0]) = true from rfl),
      closeOpen_some]
  | br =>
    rw [epara_elems_br,
      show [((base, "p", [DomNode.elem "br" []]) : Nat × String × List DomNode),
          (base + 1, "br", [])] =
        [((base, "p", [DomNode.elem "br" []]) : Nat × String × List DomNode)] ++
          [(base + 1, "br", ([] : List DomNode))] from rfl,
      runBuild_append,
      runBuild_qual_single toks _ _ (show (BuildState.mk (some s) bl k).count < MAX_BLOCKS
        from hk) (show qualifiesB (base, "p", [DomNode.elem "br" []]) = true from rfl),
      closeOpen_some,
      runBuild_nonqual_single toks _ _
        (show qualifiesB (base + 1, "br", ([] : List DomNode)) = false from rfl)]

theorem epStepNone (p : EPara) (toks : List Tok) (base : Nat)
    (bl : List (Nat × Nat)) (k : Nat) (hk : k < MAX_BLOCKS) :
    runBuild toks (DomNode.walkerElems base p.node) ⟨none, bl, k⟩ =
      ⟨some (base + 1), bl, k⟩ := by
  cases p with
  | ws s0 =>
    rw [epara_elems_ws,
      runBuild_qual_single toks _ _ (show (BuildState.mk none bl k).count < MAX_BLOCKS
        from hk) (show qualifiesB (base, "p", [DomNode.text s0]) = true from rfl),
      closeOpen_none]
  | br =>
    rw [epara_elems_br,
      show [((base, "p", [DomNode.elem "br" []]) : Nat × String × List DomNode),
          (base + 1, "br", [])] =
        [((base, "p", [DomNode.elem "br" []]) : Nat × String × List DomNode)] ++
          [(base + 1, "br", ([] : List DomNode))] from rfl,
      runBuild_append,
      runBuild_qual_single toks _ _ (show (BuildState.mk none bl k).count < MAX_BLOCKS
        from hk) (show qualifiesB (base, "p", [DomNode.elem "br" []]) = true from rfl),
      closeOpen_none,
      runBuild_nonqual_single toks _ _
        (show qualifiesB (base + 1, "br", ([] : List DomNode)) = false from rfl)]

theorem paraTail_noContent (p : EPara) (hok : p.ok) (toks Pre Post : List Tok)
    (htoks : toks = Pre ++ p.node.toks ++ Post) :
    toksContent (window toks (Pre.length + 1) (Pre.length + p.node.toks.length)) = false := by
  cases p with
  | ws s0 =>
    subst htoks
    rw [epara_toks_ws]
    have hwin : window
        (Pre ++ Tok.openTag "p" :: (s0.data.map Tok.ch ++ [Tok.closeTag "p"]) ++ Post)
        (Pre.length + 1)
        (Pre.length + (Tok.openTag "p" :: (s0.data.map Tok.ch ++ [Tok.closeTag "p"])).length) =
        s0.data.map Tok.ch ++ [Tok.closeTag "p"] := by
      have hm := window_at (Pre ++ [Tok.openTag "p"])
        (s0.data.map Tok.ch ++ [Tok.closeTag "p"]) Post
      simpa [List.append_assoc, Nat.add_comm, Nat.add_assoc, Nat.add_left_comm] using hm
    rw [hwin]
    exact toksContent_ws "p" (by decide) hok
  | br =>
    subst htoks
    rw [epara_toks_br]
    have hwin : window
        (Pre ++ [Tok.openTag "p", Tok.openTag "br", Tok.closeTag "br", Tok.closeTag "p"] ++
          Post)
        (Pre.length + 1)
        (Pre.length +
          ([Tok.openTag "p", Tok.openTag "br", Tok.closeTag "br", Tok.closeTag "p"] :
            List Tok).length) =
        [Tok.openTag "br", Tok.closeTag "br", Tok.closeTag "p"] := by
      have hm := window_at (Pre ++ [Tok.openTag "p"])
        [Tok.openTag "br", Tok.closeTag "br", Tok.closeTag "p"] Post
      simpa [List.append_assoc, Nat.add_comm, Nat.add_assoc, Nat.add_left_comm] using hm
    rw [hwin]
    decide

theorem epRunTail (ps : List EPara) : ∀ (Pre Post toks : List Tok) (s : Nat)
    (bl : List (Nat × Nat)) (k : Nat),
    toks = Pre ++ toksList (ps.map EPara.node) ++ Post →
    (∀ p ∈ ps, p.ok) → s ≤ Pre.length → k < MAX_BLOCKS →
    toksContent (window toks s Pre.length) = false →
    ∃ s2, runBuild toks (walkerElemsList Pre.length (ps.map EPara.node)) ⟨some s, bl, k⟩ =
        ⟨some s2, bl, k⟩ ∧
      s2 ≤ Pre.length + (toksList (ps.map EPara.node)).length ∧
      toksContent (window toks s2 (Pre.length + (toksList (ps.map EPara.node)).length)) =
        false := by
  induction ps with
  | nil =>
    intro Pre Post toks s bl k htoks hok hs hk hnc
    refine ⟨s, ?_, ?_, ?_⟩
    · simp [walkerElemsList, runBuild]
    · simpa [toksList] using hs
    · simpa [toksList] using hnc
  | cons p ps' ih =>
    intro Pre Post toks s bl k htoks hok hs hk hnc
    have hokp : p.ok := hok p (by simp)
    have hokr : ∀ q ∈ ps', q.ok := fun q hq => hok q (by simp [hq])
    have htoksPara : toks = Pre ++ p.node.toks ++ (toksList (ps'.map EPara.node) ++ Post) := by
      rw [htoks]
      simp [toksList, List.append_assoc]
    have htoksShift : toks = (Pre ++ p.node.toks) ++ toksList (ps'.map EPara.node) ++ Post := by
      rw [htoksPara]
      simp [List.append_assoc]
    have hc : rangeHasContent toks s Pre.length = false := by
      rw [rangeHasContent_eq]
      exact hnc
    have hstep := epStepSome p toks Pre.length s bl k hk
    rw [hc] at hstep
    simp only [Bool.false_eq_true, if_false, List.append_nil, Nat.add_zero] at hstep
    have hncP : toksContent (window toks (Pre.length + 1) ((Pre ++ p.node.toks).length)) =
        false := by
      have hbase := paraTail_noContent p hokp toks Pre (toksList (ps'.map EPara.node) ++ Post)
        htoksPara
      simpa using hbase
    have hsP : Pre.length + 1 ≤ (Pre ++ p.node.toks).length := by
      have := epara_toks_pos p
      simp
      omega
    obtain ⟨s2, heq, hle, hn⟩ := ih (Pre ++ p.node.toks) Post toks (Pre.length + 1) bl k
      htoksShift hokr hsP hk hncP
    have hmap : (p :: ps').map EPara.node = p.node :: ps'.map EPara.node := rfl
    have hlen1 : (Pre ++ p.node.toks).length = Pre.length + p.node.toks.length := by simp
    have hlen2 : Pre.length + (toksList ((p :: ps').map EPara.node)).length =
        (Pre ++ p.node.toks).length + (toksList (ps'.map EPara.node)).length := by
      rw [hmap, toksList]
      simp
      omega
    refine ⟨s2, ?_, ?_, ?_⟩
    · rw [hmap, walkerElemsList, runBuild_append, hstep, ← hlen1]
      exact heq
    · omega
    · rw [hlen2]
      exact hn

theorem epRunHead (ps : List EPara) (Pre Post toks : List Tok) (s : Nat)
    (bl : List (Nat × Nat)) (k : Nat)
    (htoks : toks = Pre ++ toksList (ps.map EPara.node) ++ Post)
    (hok : ∀ p ∈ ps, p.ok) (_ : s ≤ Pre.length) (hk : k + 1 < MAX_BLOCKS)
    (hne : ps ≠ [])
    (hc : rangeHasContent toks s Pre.length = true) :
    ∃ s2, runBuild toks (walkerElemsList Pre.length (ps.map EPara.node)) ⟨some s, bl, k⟩ =
        ⟨some s2, bl ++ [(s, Pre.length)], k + 1⟩ ∧
      s2 ≤ Pre.length + (toksList (ps.map EPara.node)).length ∧
      toksContent (window toks s2 (Pre.length + (toksList (ps.map EPara.node)).length)) =
        false := by
  cases ps with
  | nil => exact absurd rfl hne
  | cons p ps' =>
    have hokp : p.ok := hok p (by simp)
    have hokr : ∀ q ∈ ps', q.ok := fun q hq => hok q (by simp [hq])
    have htoksPara : toks = Pre ++ p.node.toks ++ (toksList (ps'.map EPara.node) ++ Post) := by
      rw [htoks]
      simp [toksList, List.append_assoc]
    have htoksShift : toks = (Pre ++ p.node.toks) ++ toksList (ps'.map EPara.node) ++ Post := by
      rw [htoksPara]
      simp [List.append_assoc]
    have hstep := epStepSome p toks Pre.length s bl k (by omega)
    rw [hc] at hstep
    simp only [if_true] at hstep
    have hncP : toksContent (window toks (Pre.length + 1) ((Pre ++ p.node.toks).length)) =
        false := by
      have hbase := paraTail_noContent p hokp toks Pre (toksList (ps'.map EPara.node) ++ Post)
        htoksPara
      simpa using hbase
    have hsP : Pre.length + 1 ≤ (Pre ++ p.node.toks).length := by
      have := epara_toks_pos p
      simp
      omega
    obtain ⟨s2, heq, hle, hn⟩ := epRunTail ps' (Pre ++ p.node.toks) Post toks (Pre.length + 1)
      (bl ++ [(s, Pre.length)]) (k + 1) htoksShift hokr hsP (by omega) hncP
    have hmap : (p :: ps').map EPara.node = p.node :: ps'.map EPara.node := rfl
    have hlen1 : (Pre ++ p.node.toks).length = Pre.length + p.node.toks.length := by simp
    have hlen2 : Pre.length + (toksList ((p :: ps').map EPara.node)).length =
        (Pre ++ p.node.toks).length + (toksList (ps'.map EPara.node)).length := by
      rw [hmap, toksList]
      simp
      omega
    refine ⟨s2, ?_, ?_, ?_⟩
    · rw [hmap, walkerElemsList, runBuild_append, hstep, ← hlen1]
      exact heq
    · omega
    · rw [hlen2]
      exact hn

theorem pTextStepSome (s0 : String) (toks : List Tok) (base s : Nat)
    (bl : List (Nat × Nat)) (k : Nat) (hk : k < MAX_BLOCKS) :
    runBuild toks (DomNode.walkerElems base (pText s0)) ⟨some s, bl, k⟩ =
      ⟨some (base + 1),
        bl ++ (if rangeHasContent toks s base then [(s, base)] else []),
        k + (if rangeHasContent toks s base then 1 else 0)⟩ := by
  rw [pText_elems,
    runBuild_qual_single toks _ _ (show (BuildState.mk (some s) bl k).count < MAX_BLOCKS
      from hk) (show qualifiesB (base, "p", [DomNode.text s0]) = true from rfl),
    closeOpen_some]

theorem pTextStepNone (s0 : String) (toks : List Tok) (base : Nat)
    (bl : List (Nat × Nat)) (k : Nat) (hk : k < MAX_BLOCKS) :
    runBuild toks (DomNode.walkerElems base (pText s0)) ⟨none, bl, k⟩ =
      ⟨some (base + 1), bl, k⟩ := by
  rw [pText_elems,
    runBuild_qual_single toks _ _ (show (BuildState.mk none bl k).count < MAX_BLOCKS
      from hk) (show qualifiesB (base, "p", [DomNode.text s0]) = true from rfl),
    closeOpen_none]

theorem pText_window_eq (s0 : String) (toks Pre Post : List Tok)
    (htoks : toks = Pre ++ (pText s0).toks ++ Post) :
    window toks (Pre.length + 1) (Pre.length + (pText s0).toks.length) =
      s0.data.map Tok.ch ++ [Tok.closeTag "p"] := by
  subst htoks
  rw [pText_toks]
  have hm := window_at (Pre ++ [Tok.openTag "p"])
    (s0.data.map Tok.ch ++ [Tok.closeTag "p"]) Post
  simpa [List.append_assoc, Nat.add_comm, Nat.add_assoc, Nat.add_left_comm] using hm

theorem pText_text (s0 : String) (toks Pre Post : List Tok)
    (htoks : toks = Pre ++ (pText s0).toks ++ Post) :
    toksText (window toks (Pre.length + 1) (Pre.length + (pText s0).toks.length)) =
      s0.data := by
  rw [pText_window_eq s0 toks Pre Post htoks, toksText_map_ch]

theorem pText_content (s0 : String) (toks Pre Post : List Tok)
    (htoks : toks = Pre ++ (pText s0).toks ++ Post)
    (hm : hasMeaningfulChars s0.data = true) :
    rangeHasContent toks (Pre.length + 1) (Pre.length + (pText s0).toks.length) = true := by
  rw [rangeHasContent_eq, pText_window_eq s0 toks Pre Post htoks]
  simp [toksContent, toksText_map_ch, hm]

theorem toksList_single (x : DomNode) : toksList [x] = x.toks := by
  simp [toksList]

theorem walkerElemsList_single (x : DomNode) (base : Nat) :
    walkerElemsList base [x] = x.walkerElems base := by
  simp [walkerElemsList]

theorem epRunNone (ps : List EPara) (Post toks : List Tok)
    (htoks : toks = toksList (ps.map EPara.node) ++ Post)
    (hok : ∀ p ∈ ps, p.ok) :
    (ps = [] ∧ runBuild toks (walkerElemsList 0 (ps.map EPara.node)) ⟨none, [], 0⟩ =
      ⟨none, [], 0⟩) ∨
    ∃ s2, runBuild toks (walkerElemsList 0 (ps.map EPara.node)) ⟨none, [], 0⟩ =
        ⟨some s2, [], 0⟩ ∧
      s2 ≤ (toksList (ps.map EPara.node)).length ∧
      toksContent (window toks s2 (toksList (ps.map EPara.node)).length) = false := by
  cases ps with
  | nil => exact Or.inl ⟨rfl, rfl⟩
  | cons p ps' =>
    right
    have hokp : p.ok := hok p (by simp)
    have hokr : ∀ q ∈ ps', q.ok := fun q hq => hok q (by simp [hq])
    have htoksPara : toks = [] ++ p.node.toks ++ (toksList (ps'.map EPara.node) ++ Post) := by
      rw [htoks]
      simp [toksList, List.append_assoc]
    have htoksShift : toks = p.node.toks ++ toksList (ps'.map EPara.node) ++ Post := by
      rw [htoksPara]
      simp [List.append_assoc]
    have hstep := epStepNone p toks 0 [] 0 (by norm_num [MAX_BLOCKS])
    have hncP : toksContent (window toks 1 p.node.toks.length) = false := by
      have hbase := paraTail_noContent p hokp toks [] (toksList (ps'.map EPara.node) ++ Post)
        htoksPara
      simpa using hbase
    have hsP : 1 ≤ p.node.toks.length := epara_toks_pos p
    obtain ⟨s2, heq, hle, hn⟩ := epRunTail ps' p.node.toks Post toks 1 [] 0
      (by simpa using htoksShift) hokr (by simpa using hsP) (by norm_num [MAX_BLOCKS])
      (by simpa using hncP)
    have hmap : (p :: ps').map EPara.node = p.node :: ps'.map EPara.node := rfl
    have hlen2 : (toksList ((p :: ps').map EPara.node)).length =
        p.node.toks.length + (toksList (ps'.map EPara.node)).length := by
      rw [hmap, toksList]
      simp
    refine ⟨s2, ?_, ?_, ?_⟩
    · rw [hmap, walkerElemsList, runBuild_append]
      rw [show (0 : Nat) + p.node.toks.length = p.node.toks.length by omega]
      norm_num at hstep
      rw [hstep]
      exact heq
    · omega
    · rw [hlen2]
      exact hn

/-! ## Claim C5 -/

/-- C5: for a document body made of whitespace-only, non-breaking-space,
zero-width-space or self-closing line-break paragraphs interspersed with
exactly two text paragraphs "First" and "Second" (in that order),
`createAsync` yields exactly 2 blocks, in document order, whose text
content is "First" and "Second" respectively. -/
theorem claim_C5_block_exclusion (A B C : List EPara)
    (hA : ∀ p ∈ A, p.ok) (hB : ∀ p ∈ B, p.ok) (hC : ∀ p ∈ C, p.ok) :
    ∃ r1 r2 : Nat × Nat,
      createBlocks (interspersedBody A B C) = [r1, r2] ∧
      toksText (window (toksList (interspersedBody A B C)) r1.1 r1.2) = "First".data ∧
      toksText (window (toksList (interspersedBody A B C)) r2.1 r2.2) = "Second".data ∧
      r1.2 ≤ r2.1 := by
  have hFlen : (pText "First").toks.length = 7 := rfl
  have hSlen : (pText "Second").toks.length = 8 := rfl
  have hFdata : hasMeaningfulChars "First".data = true := by decide
  have hSdata : hasMeaningfulChars "Second".data = true := by decide
  have htoks5 : toksList (interspersedBody A B C) =
      toksList (A.map EPara.node) ++ ((pText "First").toks ++
        (toksList (B.map EPara.node) ++ ((pText "Second").toks ++
          toksList (C.map EPara.node)))) := by
    simp [interspersedBody, toksList_append, toksList_single, toksList, List.append_assoc]
  have helems : walkerElemsList 0 (interspersedBody A B C) =
      (walkerElemsList 0 (A.map EPara.node) ++
        DomNode.walkerElems (toksList (A.map EPara.node)).length (pText "First")) ++
      ((walkerElemsList ((toksList (A.map EPara.node)).length + 7) (B.map EPara.node) ++
        DomNode.walkerElems ((toksList (A.map EPara.node)).length + 7 +
          (toksList (B.map EPara.node)).length) (pText "Second")) ++
      walkerElemsList ((toksList (A.map EPara.node)).length + 7 +
        (toksList (B.map EPara.node)).length + 8) (C.map EPara.node)) := by
    simp only [interspersedBody, walkerElemsList_append, walkerElemsList_single,
      toksList_append, toksList_single, List.length_append, hFlen, hSlen,
      Nat.zero_add, List.append_assoc, Nat.add_assoc]
  have hrunA := epRunNone A ((pText "First").toks ++ (toksList (B.map EPara.node) ++
      ((pText "Second").toks ++ toksList (C.map EPara.node))))
    (toksList (interspersedBody A B C)) htoks5 hA
  have hAF : runBuild (toksList (interspersedBody A B C))
      (walkerElemsList 0 (A.map EPara.node) ++
        DomNode.walkerElems (toksList (A.map EPara.node)).length (pText "First"))
      ⟨none, [], 0⟩ =
      ⟨some ((toksList (A.map EPara.node)).length + 1), [], 0⟩ := by
    rw [runBuild_append]
    rcases hrunA with ⟨hAnil, hrun⟩ | ⟨sA, hrun, hsA, hncA⟩
    · rw [hrun]
      exact pTextStepNone "First" _ _ [] 0 (by norm_num [MAX_BLOCKS])
    · rw [hrun]
      have hcA : rangeHasContent (toksList (interspersedBody A B C)) sA
          (toksList (A.map EPara.node)).length = false := by
        rw [rangeHasContent_eq]
        exact hncA
      rw [pTextStepSome "First" _ _ sA [] 0 (by norm_num [MAX_BLOCKS]), hcA]
      simp
  have hlenAF : (toksList (A.map EPara.node) ++ (pText "First").toks).length =
      (toksList (A.map EPara.node)).length + 7 := by
    simp [hFlen]
  have hcFirst : rangeHasContent (toksList (interspersedBody A B C))
      ((toksList (A.map EPara.node)).length + 1)
      ((toksList (A.map EPara.node)).length + 7) = true := by
    have h := pText_content "First" (toksList (interspersedBody A B C))
      (toksList (A.map EPara.node))
      (toksList (B.map EPara.node) ++ ((pText "Second").toks ++
        toksList (C.map EPara.node)))
      (by rw [htoks5]; simp [List.append_assoc]) hFdata
    rw [hFlen] at h
    exact h
  have hBS : runBuild (toksList (interspersedBody A B C))
      ((walkerElemsList ((toksList (A.map EPara.node)).length + 7) (B.map EPara.node) ++
        DomNode.walkerElems ((toksList (A.map EPara.node)).length + 7 +
          (toksList (B.map EPara.node)).length) (pText "Second")))
      ⟨some ((toksList (A.map EPara.node)).length + 1), [], 0⟩ =
      ⟨some ((toksList (A.map EPara.node)).length + 7 +
          (toksList (B.map EPara.node)).length + 1),
        [((toksList (A.map EPara.node)).length + 1,
          (toksList (A.map EPara.node)).length + 7)], 1⟩ := by
    rw [runBuild_append]
    by_cases hBnil : B = []
    · subst hBnil
      simp only [List.map_nil, toksList, walkerElemsList, List.length_nil, Nat.add_zero,
        runBuild]
      rw [if_pos (by norm_num [MAX_BLOCKS] : (0 : Nat) < MAX_BLOCKS), processElem_eq,
        if_pos (show qualifiesB ((toksList (List.map EPara.node A)).length + 7, "p",
          [DomNode.text "Second"]) = true from rfl)]
      simp [closeOpen_some, hcFirst]
    · have htoksB : toksList (interspersedBody A B C) =
          (toksList (A.map EPara.node) ++ (pText "First").toks) ++
            toksList (B.map EPara.node) ++ ((pText "Second").toks ++
              toksList (C.map EPara.node)) := by
        rw [htoks5]
        simp [List.append_assoc]
      have hcB : rangeHasContent (toksList (interspersedBody A B C))
          ((toksList (A.map EPara.node)).length + 1)
          ((toksList (A.map EPara.node) ++ (pText "First").toks).length) = true := by
        rw [hlenAF]
        exact hcFirst
      obtain ⟨sB, hrunB, hleB, hncB⟩ := epRunHead B
        (toksList (A.map EPara.node) ++ (pText "First").toks)
        ((pText "Second").toks ++ toksList (C.map EPara.node))
        (toksList (interspersedBody A B C))
        ((toksList (A.map EPara.node)).length + 1) [] 0 htoksB hB
        (by rw [hlenAF]; omega) (by norm_num [MAX_BLOCKS]) hBnil hcB
      rw [hlenAF] at hrunB hleB hncB
      rw [hrunB]
      have hcS : rangeHasContent (toksList (interspersedBody A B C)) sB
          ((toksList (A.map EPara.node)).length + 7 +
            (toksList (B.map EPara.node)).length) = false := by
        rw [rangeHasContent_eq]
        exact hncB
      rw [pTextStepSome "Second" _ _ sB _ 1 (by norm_num [MAX_BLOCKS]), hcS]
      simp
  refine ⟨((toksList (A.map EPara.node)).length + 1, (toksList (A.map EPara.node)).length + 7),
    ((toksList (A.map EPara.node)).length + 7 + (toksList (B.map EPara.node)).length + 1,
      (toksList (A.map EPara.node)).length + 7 + (toksList (B.map EPara.node)).length + 8),
    ?_, ?_, ?_, ?_⟩
  · -- createBlocks computation
    have hlenAFS : (toksList (A.map EPara.node) ++ (pText "First").toks ++
        toksList (B.map EPara.node) ++ (pText "Second").toks).length =
        (toksList (A.map EPara.node)).length + 7 + (toksList (B.map EPara.node)).length +
          8 := by
      simp [hFlen, hSlen]
      omega
    have htot : (toksList (interspersedBody A B C)).length =
        (toksList (A.map EPara.node)).length + 7 + (toksList (B.map EPara.node)).length +
          8 + (toksList (C.map EPara.node)).length := by
      rw [htoks5]
      simp [hFlen, hSlen]
      omega
    have hcSecond : rangeHasContent (toksList (interspersedBody A B C))
        ((toksList (A.map EPara.node)).length + 7 + (toksList (B.map EPara.node)).length + 1)
        ((toksList (A.map EPara.node)).length + 7 + (toksList (B.map EPara.node)).length +
          8) = true := by
      have h := pText_content "Second" (toksList (interspersedBody A B C))
        (toksList (A.map EPara.node) ++ (pText "First").toks ++ toksList (B.map EPara.node))
        (toksList (C.map EPara.node))
        (by rw [htoks5]; simp [List.append_assoc]) hSdata
      rw [hSlen] at h
      have hl3 : (toksList (A.map EPara.node) ++ (pText "First").toks ++
          toksList (B.map EPara.node)).length =
          (toksList (A.map EPara.node)).length + 7 + (toksList (B.map EPara.node)).length := by
        simp [hFlen]
        omega
      rw [hl3] at h
      exact h
    simp only [createBlocks]
    rw [helems, runBuild_append, runBuild_append, hAF, hBS]
    by_cases hCnil : C = []
    · subst hCnil
      simp only [List.map_nil, walkerElemsList, runBuild]
      have hc0 : (toksList (List.map EPara.node ([] : List EPara))).length = 0 := rfl
      rw [if_neg (by norm_num [MAX_BLOCKS])]
      have hlast : rangeHasContent (toksList (interspersedBody A B [])) ((toksList
          (A.map EPara.node)).length + 7 + (toksList (B.map EPara.node)).length + 1)
          (toksList (interspersedBody A B [])).length = true := by
        rw [show (toksList (interspersedBody A B [])).length =
          (toksList (A.map EPara.node)).length + 7 +
            (toksList (B.map EPara.node)).length + 8 by rw [htot]; simp [toksList]]
        exact hcSecond
      rw [hlast]
      simp
      rw [htot]
      simp [toksList]
    · have htoksC : toksList (interspersedBody A B C) =
          (toksList (A.map EPara.node) ++ (pText "First").toks ++
            toksList (B.map EPara.node) ++ (pText "Second").toks) ++
            toksList (C.map EPara.node) ++ [] := by
        rw [htoks5]
        simp [List.append_assoc]
      have hcC : rangeHasContent (toksList (interspersedBody A B C))
          ((toksList (A.map EPara.node)).length + 7 +
            (toksList (B.map EPara.node)).length + 1)
          ((toksList (A.map EPara.node) ++ (pText "First").toks ++
            toksList (B.map EPara.node) ++ (pText "Second").toks).length) = true := by
        rw [hlenAFS]
        exact hcSecond
      obtain ⟨sC, hrunC, hleC, hncC⟩ := epRunHead C
        (toksList (A.map EPara.node) ++ (pText "First").toks ++
          toksList (B.map EPara.node) ++ (pText "Second").toks)
        [] (toksList (interspersedBody A B C))
        ((toksList (A.map EPara.node)).length + 7 +
          (toksList (B.map EPara.node)).length + 1)
        [((toksList (A.map EPara.node)).length + 1,
          (toksList (A.map EPara.node)).length + 7)] 1 htoksC hC
        (by rw [hlenAFS]; omega) (by norm_num [MAX_BLOCKS]) hCnil hcC
      rw [hlenAFS] at hrunC hleC hncC
      rw [hrunC]
      rw [if_neg (by norm_num [MAX_BLOCKS])]
      have hlast : rangeHasContent (toksList (interspersedBody A B C)) sC
          (toksList (interspersedBody A B C)).length = false := by
        rw [rangeHasContent_eq, show (toksList (interspersedBody A B C)).length =
          (toksList (A.map EPara.node)).length + 7 + (toksList (B.map EPara.node)).length +
            8 + (toksList (C.map EPara.node)).length from htot]
        exact hncC
      rw [hlast]
      simp
  · have h := pText_text "First" (toksList (interspersedBody A B C))
      (toksList (A.map EPara.node))
      (toksList (B.map EPara.node) ++ ((pText "Second").toks ++ toksList (C.map EPara.node)))
      (by rw [htoks5]; simp [List.append_assoc])
    rw [hFlen] at h
    exact h
  · have h := pText_text "Second" (toksList (interspersedBody A B C))
      (toksList (A.map EPara.node) ++ (pText "First").toks ++ toksList (B.map EPara.node))
      (toksList (C.map EPara.node))
      (by rw [htoks5]; simp [List.append_assoc])
    rw [hSlen] at h
    have hl3 : (toksList (A.map EPara.node) ++ (pText "First").toks ++
        toksList (B.map EPara.node)).length =
        (toksList (A.map EPara.node)).length + 7 + (toksList (B.map EPara.node)).length := by
      simp [hFlen]
      omega
    rw [hl3] at h
    exact h
  · omega

theorem ws_ok_of_all {s : String} (h : s.data.all isInvisible = true) : (EPara.ws s).ok :=
  fun c hc => List.all_eq_true.mp h c hc

/-- Witness for C5 on the concrete document of the repository's own test:
whitespace, non-breaking-space/zero-width-space and line-break paragraphs
around "First" and "Second". -/
theorem claim_C5_witness :
    ∃ r1 r2 : Nat × Nat,
      createBlocks (interspersedBody []
        [EPara.ws " ", EPara.ws "\u00A0\u200B", EPara.br] [EPara.ws " "]) = [r1, r2] ∧
      toksText (window (toksList (interspersedBody []
        [EPara.ws " ", EPara.ws "\u00A0\u200B", EPara.br] [EPara.ws " "])) r1.1 r1.2) =
        "First".data ∧
      toksText (window (toksList (interspersedBody []
        [EPara.ws " ", EPara.ws "\u00A0\u200B", EPara.br] [EPara.ws " "])) r2.1 r2.2) =
        "Second".data ∧
      r1.2 ≤ r2.1 :=
  claim_C5_block_exclusion [] [EPara.ws " ", EPara.ws "\u00A0\u200B", EPara.br]
    [EPara.ws " "]
    (by intro p hp; exact absurd hp (List.not_mem_nil p))
    (by
      intro p hp
      simp only [List.mem_cons, List.not_mem_nil, or_false] at hp
      rcases hp with rfl | rfl | rfl
      · exact ws_ok_of_all (by decide)
      · exact ws_ok_of_all (by decide)
      · trivial)
    (by
      intro p hp
      simp only [List.mem_cons, List.not_mem_nil, or_false] at hp
      rcases hp with rfl
      exact ws_ok_of_all (by decide))

end Readest
